import Mathlib

/-!
Shallow embedding of crates/common/src/blobs.rs.

The file models the blob witness container, its conversion into the
preloaded blob provider (including the batched KZG verification call),
the get_blobs query loop, and the field-element extraction utilities.

External dependencies are abstracted as explicit function parameters:
the batched KZG verifier (c_kzg verify_blob_kzg_proof_batch, which
returns Result of bool) and the sha256 digest used by
kzg_to_versioned_hash.  Machine integers are modelled as Nat; byte
buffers as lists of Nat.  A Rust panic (expect / unwrap / slice index
out of bounds) is modelled as a distinguished outcome, separate from a
typed error return.
-/

/-- A byte, 0..255. -/
abbrev Byte := Nat

/-- 32-byte value (alloy B256). -/
abbrev B256 := List Byte

/-- 48-byte value (c_kzg Bytes48). -/
abbrev Bytes48 := List Byte

/-- Blob byte buffer (alloy eip4844 Blob, 131072 bytes). -/
abbrev BlobBytes := List Byte

/-- alloy_eips::eip4844::FIELD_ELEMENTS_PER_BLOB. -/
def FIELD_ELEMENTS_PER_BLOB : Nat := 4096

/-- Number of bytes in a blob: 4096 field elements of 32 bytes each. -/
def BYTES_PER_BLOB : Nat := 131072

/-- alloy_eips::eip4844::BLS_MODULUS: the BLS12-381 scalar field modulus. -/
def BLS_MODULUS : Nat :=
  52435875175126190479447740508185965837690552500527637822603658699938581184513

/-- alloy_eips::eip4844::VERSIONED_HASH_VERSION_KZG. -/
def VERSIONED_HASH_VERSION_KZG : Byte := 1

/-- U256::from_be_bytes: big-endian interpretation of a byte list.
For a 32-byte input the value is below 2 ^ 256, so no wrap occurs. -/
def from_be_bytes (bytes : List Byte) : Nat :=
  bytes.foldl (fun acc b => acc * 256 + b) 0

/-- ruint Uint::reduce_mod: value modulo the modulus, zero when the
modulus is zero. -/
def reduce_mod (x m : Nat) : Nat :=
  if m = 0 then 0 else x % m

/-- hash_to_fe from blobs.rs: interpret the 32-byte hash big-endian and
reduce it modulo BLS_MODULUS. -/
def hash_to_fe (hash : B256) : Nat :=
  reduce_mod (from_be_bytes hash) BLS_MODULUS

/-- kona_protocol::BlockInfo (only its shape matters: get_blobs ignores
its block reference argument entirely). -/
structure BlockInfo where
  hash : B256
  number : Nat
  parentHash : B256
  timestamp : Nat
deriving DecidableEq

/-- alloy_eips::eip4844::IndexedBlobHash. -/
structure IndexedBlobHash where
  index : Nat
  hash : B256
deriving DecidableEq

/-- BlobWitnessData from blobs.rs: three parallel sequences. -/
structure BlobWitnessData where
  blobs : List BlobBytes
  commitments : List Bytes48
  proofs : List Bytes48
deriving DecidableEq

/-- PreloadedBlobProvider from blobs.rs: the backing sequence of
(versioned hash, blob) pairs, consumed from the back by Vec::pop. -/
structure PreloadedBlobProvider where
  entries : List (B256 × BlobBytes)
deriving DecidableEq

/-- c_kzg::Error, abstracted (its content is never inspected). -/
inductive KzgError where
  | cError : Nat → KzgError
deriving DecidableEq

/-- kona_derive BlobProviderError, abstracted.  The provider in
blobs.rs never constructs a value of this type. -/
inductive BlobProviderError where
  | backend : Nat → BlobProviderError
deriving DecidableEq

/-- Outcome of running a fallible Rust function: a normal return value,
a typed error return, or a panic (expect / unwrap / out-of-bounds
slice index). -/
inductive Outcome (ε α : Type) where
  | ok : α → Outcome ε α
  | err : ε → Outcome ε α
  | panic : Outcome ε α
deriving DecidableEq

/-- True exactly on a typed error return. -/
def Outcome.isErr {ε α : Type} : Outcome ε α → Bool
  | .err _ => true
  | _ => false

/-- alloy kzg_to_versioned_hash: the sha256 digest of the commitment
with the leading byte replaced by the fixed version byte. -/
def kzg_to_versioned_hash (sha256 : List Byte → List Byte)
    (commitment : Bytes48) : B256 :=
  (sha256 commitment).set 0 VERSIONED_HASH_VERSION_KZG

/-- From BlobWitnessData for PreloadedBlobProvider (blobs.rs lines
52-76).  The c_kzg batch verifier returns Result of bool; the source
calls .expect on it (modelled as none on the error case) and then
DISCARDS the boolean verdict: the _verified flag below is unused,
exactly as in the source, where the expression statement drops the
bool produced by expect.  The hashes are computed per commitment in
original order, zipped with the blobs, and the zipped sequence is
reversed once to form the backing entries. -/
def preloaded_blob_provider_from
    (verify_blob_kzg_proof_batch :
      List BlobBytes → List Bytes48 → List Bytes48 → Except KzgError Bool)
    (sha256 : List Byte → List Byte)
    (value : BlobWitnessData) : Option PreloadedBlobProvider :=
  match verify_blob_kzg_proof_batch value.blobs value.commitments value.proofs with
  | .error _ => none
  | .ok _verified =>
    let hashes := value.commitments.map (kzg_to_versioned_hash sha256)
    some ⟨(List.zip hashes value.blobs).reverse⟩

/-- The loop body of PreloadedBlobProvider::get_blobs (blobs.rs lines
89-96): for each requested hash, pop the last entry (unwrap panics on
an empty store), and push the blob onto the accumulator only when the
popped hash equals the requested hash. -/
def get_blobs_go (entries : List (B256 × BlobBytes))
    (blob_hashes : List IndexedBlobHash) (blobs : List BlobBytes) :
    Outcome BlobProviderError (List BlobBytes × List (B256 × BlobBytes)) :=
  match blob_hashes with
  | [] => .ok (blobs, entries)
  | hash :: rest =>
    match entries.getLast? with
    | none => .panic
    | some (blob_hash, blob) =>
      if hash.hash = blob_hash then
        get_blobs_go entries.dropLast rest (blobs ++ [blob])
      else
        get_blobs_go entries.dropLast rest blobs

/-- PreloadedBlobProvider::get_blobs (blobs.rs lines 82-97).  The block
reference argument is ignored by the source (the binder is
underscore-prefixed there too); the log call has no semantic effect.
Returns the served blobs together with the mutated provider state. -/
def get_blobs (_block_ref : BlockInfo) (self : PreloadedBlobProvider)
    (blob_hashes : List IndexedBlobHash) :
    Outcome BlobProviderError (List BlobBytes × PreloadedBlobProvider) :=
  match get_blobs_go self.entries blob_hashes [] with
  | .ok (blobs, entries) => .ok (blobs, ⟨entries⟩)
  | .err e => .err e
  | .panic => .panic

/-- alloy_rpc_types_beacon BlobData, reduced to the blob buffer the
source reads. -/
structure BlobData where
  blob : BlobBytes
deriving DecidableEq

/-- field_elements from blobs.rs (lines 108-118): for each index i of
the iterator, slice bytes 32i..32i+32 of the blob (a Rust slice index
out of bounds is a panic, modelled as .panic), convert the slice to a
32-byte array (try_into, whose failure would be a typed error
propagated by the question-mark operator) and read it big-endian with
no modular reduction. -/
def field_elements (blob_data : BlobData) (iterator : List Nat) :
    Outcome Unit (List Nat) :=
  match iterator with
  | [] => .ok []
  | i :: rest =>
    let index := 32 * i
    if index + 32 ≤ blob_data.blob.length then
      let bytes := (blob_data.blob.drop index).take 32
      if bytes.length = 32 then
        match field_elements blob_data rest with
        | .ok vs => .ok (from_be_bytes bytes :: vs)
        | .err e => .err e
        | .panic => .panic
      else .err ()
    else .panic

/-- intermediate_outputs from blobs.rs: field elements over 0..blocks. -/
def intermediate_outputs (blob_data : BlobData) (blocks : Nat) :
    Outcome Unit (List Nat) :=
  field_elements blob_data (List.range blocks)

/-- trail_data from blobs.rs: field elements over
blocks..FIELD_ELEMENTS_PER_BLOB (empty when blocks exceeds it, as for
the Rust range). -/
def trail_data (blob_data : BlobData) (blocks : Nat) :
    Outcome Unit (List Nat) :=
  field_elements blob_data (List.range' blocks (FIELD_ELEMENTS_PER_BLOB - blocks))

/-- Specification-side restatement of the query loop on the reversed
backing sequence: entries are consumed from the front.  Used only to
reason about get_blobs_go; proved equivalent below. -/
def take_go (rentries : List (B256 × BlobBytes))
    (blob_hashes : List IndexedBlobHash) (blobs : List BlobBytes) :
    Outcome BlobProviderError (List BlobBytes × List (B256 × BlobBytes)) :=
  match blob_hashes with
  | [] => .ok (blobs, rentries)
  | hash :: rest =>
    match rentries with
    | [] => .panic
    | (blob_hash, blob) :: tl =>
      if hash.hash = blob_hash then
        take_go tl rest (blobs ++ [blob])
      else
        take_go tl rest blobs

/-- The blobs kept by one query run: those zipped pairs whose stored
hash equals the requested hash, in order. -/
def matched_blobs (l : List (IndexedBlobHash × (B256 × BlobBytes))) :
    List BlobBytes :=
  (l.filter (fun p => decide (p.1.hash = p.2.1))).map (fun p => p.2.2)

/-- Concrete all-zero blob buffer of the fixed blob size, used by the
concrete evaluations (the specification's own concrete scenario). -/
def zeroBlob : BlobBytes := List.replicate BYTES_PER_BLOB 0

lemma zeroBlob_length : zeroBlob.length = BYTES_PER_BLOB :=
  List.length_replicate BYTES_PER_BLOB 0

lemma get_blobs_go_eq_take_go (blob_hashes : List IndexedBlobHash) :
    ∀ (res : List (B256 × BlobBytes)) (acc : List BlobBytes),
    get_blobs_go res.reverse blob_hashes acc =
      match take_go res blob_hashes acc with
      | .ok (r, rem) => .ok (r, rem.reverse)
      | .err e => .err e
      | .panic => .panic := by
  induction blob_hashes with
  | nil => intro res acc; simp [get_blobs_go, take_go]
  | cons h rest ih =>
    intro res acc
    cases res with
    | nil => simp [get_blobs_go, take_go]
    | cons e tl =>
      obtain ⟨bh, blob⟩ := e
      simp only [get_blobs_go, take_go, List.reverse_cons,
        List.getLast?_concat, List.dropLast_concat]
      by_cases hc : h.hash = bh
      · simp only [if_pos hc, ih]
      · simp only [if_neg hc, ih]

lemma take_go_ok (blob_hashes : List IndexedBlobHash) :
    ∀ (res : List (B256 × BlobBytes)) (acc : List BlobBytes),
    blob_hashes.length ≤ res.length →
    take_go res blob_hashes acc =
      .ok (acc ++ matched_blobs (List.zip blob_hashes res),
           res.drop blob_hashes.length) := by
  induction blob_hashes with
  | nil => intro res acc _; simp [take_go, matched_blobs]
  | cons h rest ih =>
    intro res acc hlen
    cases res with
    | nil => simp at hlen
    | cons e tl =>
      obtain ⟨bh, blob⟩ := e
      simp only [List.length_cons, Nat.add_le_add_iff_right] at hlen
      have ihtl : ∀ a, take_go tl rest a =
          .ok (a ++ matched_blobs (List.zip rest tl), tl.drop rest.length) :=
        fun a => ih tl a hlen
      simp only [take_go, List.zip_cons_cons, matched_blobs, List.filter_cons]
      by_cases hc : h.hash = bh
      · simp [if_pos hc, hc, ihtl, matched_blobs]
      · simp [if_neg hc, hc, ihtl, matched_blobs]

lemma take_go_exhausted (blob_hashes : List IndexedBlobHash) :
    ∀ (res : List (B256 × BlobBytes)) (acc : List BlobBytes),
    res.length < blob_hashes.length →
    take_go res blob_hashes acc = .panic := by
  induction blob_hashes with
  | nil => intro res acc h; simp at h
  | cons h rest ih =>
    intro res acc hlen
    cases res with
    | nil => simp [take_go]
    | cons e tl =>
      obtain ⟨bh, blob⟩ := e
      simp only [List.length_cons, Nat.add_lt_add_iff_right] at hlen
      simp only [take_go]
      by_cases hc : h.hash = bh
      · simp only [if_pos hc, ih tl _ hlen]
      · simp only [if_neg hc, ih tl _ hlen]

lemma get_blobs_ok (br : BlockInfo) (s : PreloadedBlobProvider)
    (blob_hashes : List IndexedBlobHash)
    (h : blob_hashes.length ≤ s.entries.length) :
    get_blobs br s blob_hashes =
      .ok (matched_blobs (List.zip blob_hashes s.entries.reverse),
           ⟨(s.entries.reverse.drop blob_hashes.length).reverse⟩) := by
  have hrev : s.entries = s.entries.reverse.reverse := (List.reverse_reverse _).symm
  rw [get_blobs, hrev, get_blobs_go_eq_take_go, take_go_ok]
  · simp
  · simpa using h

lemma get_blobs_exhausted (br : BlockInfo) (s : PreloadedBlobProvider)
    (blob_hashes : List IndexedBlobHash)
    (h : s.entries.length < blob_hashes.length) :
    get_blobs br s blob_hashes = .panic := by
  have hrev : s.entries = s.entries.reverse.reverse := (List.reverse_reverse _).symm
  rw [get_blobs, hrev, get_blobs_go_eq_take_go, take_go_exhausted]
  simpa using h

lemma field_elements_ok (blob_data : BlobData) :
    ∀ (it : List Nat), (∀ i ∈ it, 32 * i + 32 ≤ blob_data.blob.length) →
    field_elements blob_data it =
      .ok (it.map (fun i => from_be_bytes ((blob_data.blob.drop (32 * i)).take 32))) := by
  intro it
  induction it with
  | nil => intro _; simp [field_elements]
  | cons i rest ih =>
    intro hrange
    have hi : 32 * i + 32 ≤ blob_data.blob.length :=
      hrange i (List.mem_cons_self i rest)
    have hslice : ((blob_data.blob.drop (32 * i)).take 32).length = 32 := by
      simp only [List.length_take, List.length_drop]
      omega
    have hrest : ∀ j ∈ rest, 32 * j + 32 ≤ blob_data.blob.length :=
      fun j hj => hrange j (List.mem_cons_of_mem i hj)
    simp only [field_elements, if_pos hi, hslice, ih hrest, List.map_cons]
    simp

lemma field_elements_oob (blob_data : BlobData) :
    ∀ (it : List Nat), (∃ i ∈ it, blob_data.blob.length < 32 * i + 32) →
    field_elements blob_data it = .panic := by
  intro it
  induction it with
  | nil => rintro ⟨i, hi, _⟩; simp at hi
  | cons i rest ih =>
    rintro ⟨j, hj, hoob⟩
    by_cases hi : 32 * i + 32 ≤ blob_data.blob.length
    · have hslice : ((blob_data.blob.drop (32 * i)).take 32).length = 32 := by
        simp only [List.length_take, List.length_drop]
        omega
      have hjrest : j ∈ rest := by
        rcases List.mem_cons.mp hj with h | h
        · omega
        · exact h
      simp only [field_elements, if_pos hi, hslice, ih ⟨j, hjrest, hoob⟩]
      simp
    · simp only [field_elements, if_neg hi]

/-- Claim C5: for every 32-byte hash, hash_to_fe is strictly below
BLS_MODULUS, and it is the identity on hashes whose big-endian value is
already below the modulus. -/
theorem hash_to_fe_reduces (hash : B256) (hlen : hash.length = 32)
    (hbytes : ∀ b ∈ hash, b < 256) :
    hash_to_fe hash < BLS_MODULUS ∧
    (from_be_bytes hash < BLS_MODULUS → hash_to_fe hash = from_be_bytes hash) := by
  have hmod : BLS_MODULUS ≠ 0 := by decide
  constructor
  · simp only [hash_to_fe, reduce_mod, if_neg hmod]
    exact Nat.mod_lt _ (Nat.pos_of_ne_zero hmod)
  · intro hlt
    simp only [hash_to_fe, reduce_mod, if_neg hmod]
    exact Nat.mod_eq_of_lt hlt

/-- Witness for claim C5 at the all-zero 32-byte hash. -/
theorem hash_to_fe_reduces_witness :
    hash_to_fe (List.replicate 32 0) < BLS_MODULUS ∧
    hash_to_fe (List.replicate 32 0) = from_be_bytes (List.replicate 32 0) := by
  have h := hash_to_fe_reduces (List.replicate 32 0) (by decide)
    (fun b hb => by rw [List.eq_of_mem_replicate hb]; decide)
  exact ⟨h.1, h.2 (by decide)⟩

/-- Claim C6: for every blob buffer of the fixed blob size and every k
up to 4096, the leading elements (indices 0..k) concatenated with the
trailing elements (indices k..4096) equal the extraction over the full
index range 0..4096. -/
theorem intermediate_trail_concat (blob_data : BlobData) (k : Nat)
    (hk : k ≤ FIELD_ELEMENTS_PER_BLOB)
    (hlen : blob_data.blob.length = BYTES_PER_BLOB) :
    ∃ l t a, intermediate_outputs blob_data k = .ok l ∧
      trail_data blob_data k = .ok t ∧
      field_elements blob_data (List.range FIELD_ELEMENTS_PER_BLOB) = .ok a ∧
      l ++ t = a := by
  have hk' : k ≤ 4096 := by simpa [FIELD_ELEMENTS_PER_BLOB] using hk
  have hb : ∀ i : Nat, i < 4096 → 32 * i + 32 ≤ blob_data.blob.length := by
    intro i hi
    rw [hlen]
    simp only [BYTES_PER_BLOB]
    omega
  refine ⟨(List.range k).map
            (fun i => from_be_bytes ((blob_data.blob.drop (32 * i)).take 32)),
          (List.range' k (FIELD_ELEMENTS_PER_BLOB - k)).map
            (fun i => from_be_bytes ((blob_data.blob.drop (32 * i)).take 32)),
          (List.range FIELD_ELEMENTS_PER_BLOB).map
            (fun i => from_be_bytes ((blob_data.blob.drop (32 * i)).take 32)),
          ?_, ?_, ?_, ?_⟩
  · rw [intermediate_outputs]
    exact field_elements_ok _ _
      (fun i hi => hb i (Nat.lt_of_lt_of_le (List.mem_range.mp hi) hk'))
  · rw [trail_data]
    refine field_elements_ok _ _ (fun i hi => ?_)
    have := (List.mem_range'_1.mp hi).2
    simp only [FIELD_ELEMENTS_PER_BLOB] at this
    exact hb i (by omega)
  · refine field_elements_ok _ _ (fun i hi => ?_)
    have := List.mem_range.mp hi
    simp only [FIELD_ELEMENTS_PER_BLOB] at this
    exact hb i this
  · rw [← List.map_append]
    have h1 : FIELD_ELEMENTS_PER_BLOB - k + k = FIELD_ELEMENTS_PER_BLOB := by
      simp only [FIELD_ELEMENTS_PER_BLOB]
      omega
    have h2 : List.range k ++ List.range' k (FIELD_ELEMENTS_PER_BLOB - k) =
        List.range FIELD_ELEMENTS_PER_BLOB := by
      rw [List.range_eq_range', List.range_eq_range']
      have h3 := List.range'_append_1 0 k (FIELD_ELEMENTS_PER_BLOB - k)
      rw [Nat.zero_add] at h3
      rw [h3, h1]
    rw [h2]

/-- Witness for claim C6 on the all-zero blob with k = 8, the concrete
scenario named by the specification. -/
theorem intermediate_trail_concat_witness :
    ∃ l t a, intermediate_outputs ⟨zeroBlob⟩ 8 = .ok l ∧
      trail_data ⟨zeroBlob⟩ 8 = .ok t ∧
      field_elements ⟨zeroBlob⟩
        (List.range FIELD_ELEMENTS_PER_BLOB) = .ok a ∧
      l ++ t = a :=
  intermediate_trail_concat ⟨zeroBlob⟩ 8 (by decide) zeroBlob_length

/-- Claim C7 (amended): extract_range returns, for each index i in
order, the 32-byte window at byte offset 32i read big-endian with no
modular reduction; when some window exceeds the blob length the
function panics (Rust slice indexing aborts) rather than returning the
typed error of its fallible signature. -/
theorem field_elements_windows (blob_data : BlobData) (it : List Nat) :
    ((∀ i ∈ it, 32 * i + 32 ≤ blob_data.blob.length) →
      field_elements blob_data it =
        .ok (it.map
          (fun i => from_be_bytes ((blob_data.blob.drop (32 * i)).take 32)))) ∧
    ((∃ i ∈ it, blob_data.blob.length < 32 * i + 32) →
      field_elements blob_data it = .panic) :=
  ⟨field_elements_ok blob_data it, field_elements_oob blob_data it⟩

/-- Witness for claim C7 (amended): an in-range extraction over two
windows of a 64-byte buffer succeeds with the raw big-endian values,
and an out-of-range window panics. -/
theorem field_elements_windows_witness :
    field_elements ⟨List.replicate 64 0⟩ [0, 1] =
      .ok ([0, 1].map
        (fun i => from_be_bytes (((List.replicate 64 (0 : Nat)).drop (32 * i)).take 32))) ∧
    field_elements ⟨List.replicate 64 0⟩ [2] = .panic :=
  ⟨(field_elements_windows ⟨List.replicate 64 0⟩ [0, 1]).1 (by decide),
   (field_elements_windows ⟨List.replicate 64 0⟩ [2]).2 (by decide)⟩

/-- Claim C7 counterexample: asking for element index 4096 of a
full-size blob makes the computed window exceed the blob length, and
the result is a panic, not a typed error return as the claim states. -/
theorem field_elements_oob_panics_not_typed :
    field_elements ⟨zeroBlob⟩ [4096] = .panic ∧
    Outcome.isErr (field_elements ⟨zeroBlob⟩ [4096]) = false := by
  have h : field_elements ⟨zeroBlob⟩ [4096] = .panic := by
    apply field_elements_oob
    refine ⟨4096, List.mem_singleton_self 4096, ?_⟩
    show zeroBlob.length < 32 * 4096 + 32
    rw [zeroBlob_length]
    simp only [BYTES_PER_BLOB]
    omega
  exact ⟨h, by rw [h]; rfl⟩

lemma take_go_all_match :
    ∀ (reqs : List IndexedBlobHash) (hs : List B256) (bs : List BlobBytes)
      (acc : List BlobBytes),
    reqs.map IndexedBlobHash.hash = hs → hs.length = bs.length →
    take_go (List.zip hs bs) reqs acc = .ok (acc ++ bs, []) := by
  intro reqs
  induction reqs with
  | nil =>
    intro hs bs acc hmap hlen
    cases hs with
    | nil =>
      cases bs with
      | nil => simp [take_go]
      | cons b bt => simp at hlen
    | cons h ht => simp at hmap
  | cons r rt ih =>
    intro hs bs acc hmap hlen
    cases hs with
    | nil => simp at hmap
    | cons h ht =>
      cases bs with
      | nil => simp at hlen
      | cons b bt =>
        simp only [List.map_cons, List.cons.injEq] at hmap
        obtain ⟨hr, hmap'⟩ := hmap
        have hlen' : ht.length = bt.length := by simpa using hlen
        have step : take_go (List.zip (h :: ht) (b :: bt)) (r :: rt) acc =
            take_go (List.zip ht bt) rt (acc ++ [b]) := by
          simp only [List.zip_cons_cons, take_go, if_pos hr]
          rfl
        rw [step, ih ht bt (acc ++ [b]) hmap' hlen', List.append_assoc]
        rfl

/-- Claim C1: for every witness whose triples all pass the batched KZG
verification (the abstract batch verifier reports a clean true), the
store is built, and querying it with the versioned hashes derived from
the commitments in original index order serves exactly the original
blobs in original order, with result length equal to request length. -/
theorem preloaded_provider_roundtrip
    (verify : List BlobBytes → List Bytes48 → List Bytes48 → Except KzgError Bool)
    (sha256 : List Byte → List Byte) (w : BlobWitnessData) (br : BlockInfo)
    (reqs : List IndexedBlobHash)
    (hlen : w.blobs.length = w.commitments.length)
    (hverify : verify w.blobs w.commitments w.proofs = Except.ok true)
    (hreqs : reqs.map IndexedBlobHash.hash =
      w.commitments.map (kzg_to_versioned_hash sha256)) :
    ∃ store : PreloadedBlobProvider,
      preloaded_blob_provider_from verify sha256 w = some store ∧
      get_blobs br store reqs = .ok (w.blobs, ⟨[]⟩) ∧
      w.blobs.length = reqs.length := by
  refine ⟨⟨(List.zip (w.commitments.map (kzg_to_versioned_hash sha256))
      w.blobs).reverse⟩, ?_, ?_, ?_⟩
  · rw [preloaded_blob_provider_from, hverify]
  · rw [get_blobs]
    have hl : (w.commitments.map (kzg_to_versioned_hash sha256)).length =
        w.blobs.length := by
      rw [List.length_map, hlen]
    rw [show (⟨(List.zip (w.commitments.map (kzg_to_versioned_hash sha256))
          w.blobs).reverse⟩ : PreloadedBlobProvider).entries =
        (List.zip (w.commitments.map (kzg_to_versioned_hash sha256))
          w.blobs).reverse from rfl]
    rw [get_blobs_go_eq_take_go reqs _ [],
      take_go_all_match reqs _ _ [] hreqs hl]
    simp
  · have h1 : reqs.length = w.commitments.length := by
      simpa using congrArg List.length hreqs
    rw [hlen, h1]

/-- Witness for claim C1 with one consistent triple; the abstract
verifier accepts, and the single blob is served back for the versioned
hash of its commitment. -/
theorem preloaded_provider_roundtrip_witness :
    ∃ store : PreloadedBlobProvider,
      preloaded_blob_provider_from (fun _ _ _ => Except.ok true)
        (fun _ => List.replicate 32 0)
        ⟨[zeroBlob], [List.replicate 48 0], [List.replicate 48 0]⟩ = some store ∧
      get_blobs ⟨List.replicate 32 0, 0, List.replicate 32 0, 0⟩ store
        [⟨0, kzg_to_versioned_hash (fun _ => List.replicate 32 0)
            (List.replicate 48 0)⟩] = .ok ([zeroBlob], ⟨[]⟩) ∧
      ([zeroBlob] : List BlobBytes).length =
        ([⟨0, kzg_to_versioned_hash (fun _ => List.replicate 32 0)
            (List.replicate 48 0)⟩] : List IndexedBlobHash).length :=
  preloaded_provider_roundtrip (fun _ _ _ => Except.ok true)
    (fun _ => List.replicate 32 0)
    ⟨[zeroBlob], [List.replicate 48 0], [List.replicate 48 0]⟩
    ⟨List.replicate 32 0, 0, List.replicate 32 0, 0⟩
    [⟨0, kzg_to_versioned_hash (fun _ => List.replicate 32 0)
        (List.replicate 48 0)⟩] rfl rfl rfl

/-- Claim C2 (code defect evaluation): when the batched KZG check
reports that the proofs do NOT verify (the c_kzg call returns a clean
false verdict rather than an error), the source still constructs the
store, because the boolean returned through expect is discarded; the
unverified blob is then served for its versioned hash.  This
contradicts the all-or-nothing gate the claim states. -/
theorem failed_verification_still_builds_store :
    preloaded_blob_provider_from (fun _ _ _ => Except.ok false)
      (fun _ => List.replicate 32 0)
      ⟨[zeroBlob], [List.replicate 48 0], [List.replicate 48 0]⟩ =
      some ⟨[(kzg_to_versioned_hash (fun _ => List.replicate 32 0)
        (List.replicate 48 0), zeroBlob)]⟩ ∧
    get_blobs ⟨List.replicate 32 0, 0, List.replicate 32 0, 0⟩
      ⟨[(kzg_to_versioned_hash (fun _ => List.replicate 32 0)
        (List.replicate 48 0), zeroBlob)]⟩
      [⟨0, kzg_to_versioned_hash (fun _ => List.replicate 32 0)
        (List.replicate 48 0)⟩] =
      .ok ([zeroBlob], ⟨[]⟩) := by
  constructor
  · rfl
  · rfl

/-- Claim C3 (amended): querying with more hashes than remaining
entries panics (unwrap on an empty pop) exactly at the point of
exhaustion: the prefix of requests equal to the number of remaining
entries is processed normally and succeeds, while extending the prefix
by the request at that position already panics, as does the full
request list; no typed error value is returned. -/
theorem store_exhaustion_panics (br : BlockInfo) (s : PreloadedBlobProvider)
    (reqs : List IndexedBlobHash) (h : s.entries.length < reqs.length) :
    (∃ res s', get_blobs br s (reqs.take s.entries.length) = .ok (res, s')) ∧
    get_blobs br s (reqs.take (s.entries.length + 1)) = .panic ∧
    get_blobs br s reqs = .panic := by
  refine ⟨⟨_, _, get_blobs_ok br s _ ?_⟩, ?_,
    get_blobs_exhausted br s reqs h⟩
  · rw [List.length_take]
    omega
  · apply get_blobs_exhausted
    rw [List.length_take]
    omega

/-- Witness for claim C3 (amended) on a store with one entry and two
requests: the one-request prefix succeeds and the two-request list
panics. -/
theorem store_exhaustion_panics_witness :
    (∃ res s', get_blobs ⟨[], 0, [], 0⟩
        ⟨[(List.replicate 32 0, zeroBlob)]⟩
        [⟨0, List.replicate 32 0⟩] = .ok (res, s')) ∧
    get_blobs ⟨[], 0, [], 0⟩ ⟨[(List.replicate 32 0, zeroBlob)]⟩
      [⟨0, List.replicate 32 0⟩, ⟨1, List.replicate 32 0⟩] = .panic ∧
    get_blobs ⟨[], 0, [], 0⟩ ⟨[(List.replicate 32 0, zeroBlob)]⟩
      [⟨0, List.replicate 32 0⟩, ⟨1, List.replicate 32 0⟩] = .panic :=
  store_exhaustion_panics ⟨[], 0, [], 0⟩ ⟨[(List.replicate 32 0, zeroBlob)]⟩
    [⟨0, List.replicate 32 0⟩, ⟨1, List.replicate 32 0⟩] (by decide)

/-- Claim C3 counterexample: on a store with one remaining entry and
two requests the result is a panic (an uncontrolled abort), not the
explicit typed failure the claim states. -/
theorem store_exhaustion_not_typed_error :
    get_blobs ⟨[], 0, [], 0⟩ ⟨[(List.replicate 32 0, zeroBlob)]⟩
      [⟨0, List.replicate 32 0⟩, ⟨1, List.replicate 32 0⟩] = .panic ∧
    Outcome.isErr (get_blobs ⟨[], 0, [], 0⟩
      ⟨[(List.replicate 32 0, zeroBlob)]⟩
      [⟨0, List.replicate 32 0⟩, ⟨1, List.replicate 32 0⟩]) = false := by
  constructor
  · rfl
  · rfl

/-- Claim C4: whenever a query returns normally, the result is exactly
the blobs of the popped entries whose stored hash matched the
corresponding requested hash (mismatches contribute nothing), so every
returned blob is the stored blob whose versioned hash equals its
request. -/
theorem get_blobs_no_wrong_blob (br : BlockInfo) (s : PreloadedBlobProvider)
    (reqs : List IndexedBlobHash) (res : List BlobBytes)
    (s' : PreloadedBlobProvider)
    (h : get_blobs br s reqs = .ok (res, s')) :
    res = matched_blobs (List.zip reqs s.entries.reverse) ∧
    ∀ b ∈ res, ∃ p ∈ List.zip reqs s.entries.reverse,
      p.1.hash = p.2.1 ∧ b = p.2.2 := by
  have hle : reqs.length ≤ s.entries.length := by
    by_contra hlt
    rw [get_blobs_exhausted br s reqs (by omega)] at h
    exact Outcome.noConfusion h
  rw [get_blobs_ok br s reqs hle] at h
  have hres : res = matched_blobs (List.zip reqs s.entries.reverse) := by
    simp only [Outcome.ok.injEq, Prod.mk.injEq] at h
    exact h.1.symm
  refine ⟨hres, ?_⟩
  intro b hb
  rw [hres] at hb
  simp only [matched_blobs, List.mem_map, List.mem_filter] at hb
  obtain ⟨p, ⟨hpz, hpd⟩, hpb⟩ := hb
  exact ⟨p, hpz, of_decide_eq_true hpd, hpb.symm⟩

/-- Witness for claim C4 on a two-entry store where the first request
matches and the second does not: only the matching blob is returned. -/
theorem get_blobs_no_wrong_blob_witness :
    [zeroBlob] = matched_blobs (List.zip
      [⟨0, List.replicate 32 0⟩, ⟨1, List.replicate 32 2⟩]
      ([(List.replicate 32 1, zeroBlob), (List.replicate 32 0, zeroBlob)] :
        List (B256 × BlobBytes)).reverse) ∧
    ∀ b ∈ [zeroBlob], ∃ p ∈ List.zip
      ([⟨0, List.replicate 32 0⟩, ⟨1, List.replicate 32 2⟩] :
        List IndexedBlobHash)
      ([(List.replicate 32 1, zeroBlob), (List.replicate 32 0, zeroBlob)] :
        List (B256 × BlobBytes)).reverse,
      p.1.hash = p.2.1 ∧ b = p.2.2 :=
  get_blobs_no_wrong_blob ⟨[], 0, [], 0⟩
    ⟨[(List.replicate 32 1, zeroBlob), (List.replicate 32 0, zeroBlob)]⟩
    [⟨0, List.replicate 32 0⟩, ⟨1, List.replicate 32 2⟩]
    [zeroBlob] ⟨[]⟩ rfl

/-- Claim C8: whenever the batch verification call reports a clean
true, the store is built by hashing each commitment in original index
order to its versioned hash (the digest with the fixed version byte
substituted for the leading byte, per the kzg_to_versioned_hash
definition), pairing hashes with blobs at equal indices, and reversing
the paired sequence exactly once; hence the backing sequence's last
element corresponds to original index 0. -/
theorem store_construction_reversed
    (verify : List BlobBytes → List Bytes48 → List Bytes48 → Except KzgError Bool)
    (sha256 : List Byte → List Byte) (w : BlobWitnessData)
    (hverify : verify w.blobs w.commitments w.proofs = Except.ok true) :
    preloaded_blob_provider_from verify sha256 w =
      some ⟨(List.zip (w.commitments.map (kzg_to_versioned_hash sha256))
        w.blobs).reverse⟩ ∧
    ∀ c cs b bs, w.commitments = c :: cs → w.blobs = b :: bs →
      ((List.zip (w.commitments.map (kzg_to_versioned_hash sha256))
        w.blobs).reverse).getLast? =
        some (kzg_to_versioned_hash sha256 c, b) := by
  constructor
  · rw [preloaded_blob_provider_from, hverify]
  · intro c cs b bs hc hb
    rw [List.getLast?_reverse, hc, hb, List.map_cons, List.zip_cons_cons]
    rfl

/-- Witness for claim C8 with a single triple: the store is the
reversed one-pair sequence and its last element is the pair for
index 0. -/
theorem store_construction_reversed_witness :
    preloaded_blob_provider_from (fun _ _ _ => Except.ok true)
      (fun _ => List.replicate 32 0)
      ⟨[zeroBlob], [List.replicate 48 0], [List.replicate 48 0]⟩ =
      some ⟨(List.zip ([List.replicate 48 0].map
        (kzg_to_versioned_hash (fun _ => List.replicate 32 0)))
        [zeroBlob]).reverse⟩ ∧
    ((List.zip ([List.replicate 48 0].map
        (kzg_to_versioned_hash (fun _ => List.replicate 32 0)))
        [zeroBlob]).reverse).getLast? =
      some (kzg_to_versioned_hash (fun _ => List.replicate 32 0)
        (List.replicate 48 0), zeroBlob) := by
  have h := store_construction_reversed (fun _ _ _ => Except.ok true)
    (fun _ => List.replicate 32 0)
    ⟨[zeroBlob], [List.replicate 48 0], [List.replicate 48 0]⟩ rfl
  exact ⟨h.1, h.2 (List.replicate 48 0) [] zeroBlob [] rfl rfl⟩

/-- Claim C9: get_blobs never reads its block reference argument, so
any two calls differing only in the block reference agree on both the
returned blobs and the final store state. -/
theorem get_blobs_ignores_block_ref (br1 br2 : BlockInfo)
    (s : PreloadedBlobProvider) (reqs : List IndexedBlobHash) :
    get_blobs br1 s reqs = get_blobs br2 s reqs := rfl

/-- Claim C10: with at least as many entries as requests, a query
returns normally, removes exactly one entry per request (matched or
not), so the store length decreases by exactly the request count, and
the returned sequence is at most as long as the request list. -/
theorem get_blobs_consumes_exactly (br : BlockInfo)
    (s : PreloadedBlobProvider) (reqs : List IndexedBlobHash)
    (h : reqs.length ≤ s.entries.length) :
    ∃ res s', get_blobs br s reqs = .ok (res, s') ∧
      s'.entries.length = s.entries.length - reqs.length ∧
      res.length ≤ reqs.length := by
  refine ⟨_, _, get_blobs_ok br s reqs h, ?_, ?_⟩
  · simp [List.length_reverse, List.length_drop]
  · have h1 : (matched_blobs (List.zip reqs s.entries.reverse)).length ≤
        (List.zip reqs s.entries.reverse).length := by
      simp only [matched_blobs, List.length_map]
      exact List.length_filter_le _ _
    have h2 : (List.zip reqs s.entries.reverse).length ≤ reqs.length := by
      rw [List.length_zip]
      omega
    exact le_trans h1 h2

/-- Witness for claim C10 on a one-entry store and one mismatching
request: the call succeeds, the store empties, and the result has at
most one element. -/
theorem get_blobs_consumes_exactly_witness :
    ∃ res s', get_blobs ⟨[], 0, [], 0⟩
      ⟨[(List.replicate 32 0, zeroBlob)]⟩
      [⟨0, List.replicate 32 1⟩] = .ok (res, s') ∧
      s'.entries.length = 0 ∧ res.length ≤ 1 :=
  get_blobs_consumes_exactly ⟨[], 0, [], 0⟩
    ⟨[(List.replicate 32 0, zeroBlob)]⟩
    [⟨0, List.replicate 32 1⟩] (by decide)
